import Mathlib

/-!
# VoiceControl: a shallow embedding of `VoiceControl.cpp`

The plugin keeps a global list of parent measures, gives every parent a speech
recognizer `Device`, folds the recognizer's pending events into that device on
every `Update`, and renders the recognized phrases with `GetString`.

Conventions of the embedding:

* a `WCHAR` is a 16-bit code unit and a `WCHAR` string is the list of the units
  before the terminating NUL, so lengths and buffer sizes count code units as
  the C runtime does;
* a pointer to a `Measure` is a natural number, `Option` stands for a pointer
  that may be `NULL`, and the live measures are the ones the heap maps to `some`;
* an operation returns `none` where the C++ code would read or write outside an
  object or call a library function outside its contract (a dangling measure
  pointer, an index outside `m_reco`, `_snwprintf_s` told a size larger than the
  elements left in the destination, `erase(end())`);
* the `double` returned by `Update` is the conversion of a `bool`, exactly `1.0`
  or `0.0`; it is represented by the integer `1` or `0`;
* the events waiting in the recognition context when `Update` runs are passed to
  it as a list, in arrival order.
-/

namespace VoiceControl

/-- A `WCHAR`: one 16-bit code unit. -/
abbrev WCHAR := Fin 65536

/-- A NUL-terminated `WCHAR` string: the code units before the terminator. -/
abbrev WString := List WCHAR

/-- The UTF-16 code units of one character: one unit below U+10000, a surrogate
pair above. -/
def utf16 (c : Char) : List WCHAR :=
  if c.toNat < 65536 then [⟨c.toNat % 65536, Nat.mod_lt _ (by decide)⟩]
  else
    [⟨(55296 + (c.toNat - 65536) / 1024) % 65536, Nat.mod_lt _ (by decide)⟩,
     ⟨(56320 + (c.toNat - 65536) % 1024) % 65536, Nat.mod_lt _ (by decide)⟩]

/-- The wide string literal for a text: its UTF-16 code units. -/
def wide (text : String) : WString :=
  text.toList.flatMap utf16

/-- The address of a heap-allocated `Measure`. -/
abbrev Ptr := Nat

/-! ## HRESULT -/

/-- The `S_OK` success code. -/
def S_OK : Int := 0

/-- The `FAILED(hr)` test: a negative `HRESULT` is a failure. -/
def FAILED (hr : Int) : Bool := decide (hr < 0)

/-! ## C runtime functions used by the plugin -/

/-- The `towlower` conversion in the default "C" locale: only `A`..`Z` change. -/
def towlower (c : WCHAR) : WCHAR :=
  if h : 65 ≤ c.val ∧ c.val ≤ 90 then ⟨c.val + 32, by omega⟩ else c

/-- The `_wcsicmp(a, b)` comparison: lexicographic order of the lower-cased
strings; `0` when they are equal ignoring case. -/
def _wcsicmp : WString → WString → Int
  | [], [] => 0
  | [], _ :: _ => -1
  | _ :: _, [] => 1
  | a :: as, b :: bs =>
    if towlower a = towlower b then _wcsicmp as bs
    else ((towlower a).val : Int) - ((towlower b).val : Int)

/-- The call `_snwprintf_s(buffer, sizeOfBuffer, _TRUNCATE, ...)`: `buffer` is
the number of elements that really follow the destination pointer, `formatted`
the expanded format. The call is inside the contract of the function only when
`sizeOfBuffer` is not zero and not larger than `buffer`; otherwise the result
is `none`. Inside the contract the result is the text stored in front of the
terminator and the returned count: text shorter than `sizeOfBuffer` code units
is stored whole and its length returned; otherwise the first `sizeOfBuffer - 1`
units are stored and `-1` is returned. -/
def _snwprintf_s (buffer sizeOfBuffer : Nat) (formatted : WString) : Option (WString × Int) :=
  if sizeOfBuffer = 0 ∨ buffer < sizeOfBuffer then none
  else if formatted.length < sizeOfBuffer then some (formatted, formatted.length)
  else some (formatted.take (sizeOfBuffer - 1), -1)

/-! ## The recognizer device -/

/-- What a grammar object was loaded from. -/
inductive GrammarSource
  | cmdFile (fnGrammar : WString)
  | dictation
  deriving DecidableEq, Repr

/-- The engine-side state of the `ISpRecoGrammar` object behind `cpGrammar`. -/
structure Grammar where
  loaded : Option GrammarSource
  ruleActive : Bool
  dictationActive : Bool
  deriving DecidableEq, Repr

/-- The engine-side state of the `ISpRecognizer` object behind `cpRecognizer`. -/
structure Recognizer where
  inputSet : Bool
  recoActive : Bool
  deriving DecidableEq, Repr

/-- The engine-side state of the `ISpRecoContext` object behind `cpContext`. -/
structure Context where
  notifySet : Bool
  interestSet : Bool
  deriving DecidableEq, Repr

/-- The `struct Device`: four COM smart pointers (`none` is a null pointer), the
sound flag, the phrase count and the `WCHAR m_reco[8][256]` rows. -/
structure Device where
  cpRecognizer : Option Recognizer
  cpContext : Option Context
  cpAudio : Option Unit
  cpGrammar : Option Grammar
  m_sndActive : Bool
  m_nReco : Int
  m_reco : Fin 8 → WString

/-- The constructor `Device()`: null handles, no sound, no phrase, zeroed rows. -/
def Device.new : Device :=
  { cpRecognizer := none, cpContext := none, cpAudio := none, cpGrammar := none,
    m_sndActive := false, m_nReco := 0, m_reco := fun _ => [] }

/-- The row `m_reco[i]` for a C `int` index; `none` outside the array. -/
def rowIndex (i : Int) : Option (Fin 8) :=
  if h : 0 ≤ i ∧ i < 8 then some ⟨i.toNat, by omega⟩ else none

/-- Overwrite one row of `m_reco`. -/
def setRow (rows : Fin 8 → WString) (i : Fin 8) (text : WString) : Fin 8 → WString :=
  fun j => if j = i then text else rows j

/-- The row `m_reco[i]`, when `i` is inside the array. -/
def Device.row (dev : Device) (i : Nat) : Option WString :=
  if h : i < 8 then some (dev.m_reco ⟨i, h⟩) else none

/-- The phrases the device currently reports: `m_reco[0 .. m_nReco)`. -/
def Device.results (dev : Device) : List WString :=
  (List.range dev.m_nReco.toNat).filterMap dev.row

/-! ## Events -/

/-- The events the recognition context delivers (the interest mask set in
`DeviceInit` admits exactly these three). A recognition carries the outcome of
`RecoResult()->GetText(...)`: the phrase text, or `none` when the call fails. -/
inductive Event
  | SPEI_SOUND_START
  | SPEI_SOUND_END
  | SPEI_RECOGNITION (getText : Option WString)
  deriving DecidableEq, Repr

/-- The `switch(event.eEventId)` of `Update`, for one event. The destination of
`_snwprintf_s` is a row of 256 elements, and the array overload passes that
size. -/
def Update_switch (dev : Device) : Event → Option Device
  | .SPEI_SOUND_START => some { dev with m_nReco := 0, m_sndActive := true }
  | .SPEI_SOUND_END => some { dev with m_sndActive := false }
  | .SPEI_RECOGNITION getText =>
    let dev := { dev with m_nReco := 0 }
    if dev.m_nReco < 8 then
      match getText with
      | none => some dev
      | some dstrText =>
        match rowIndex dev.m_nReco, _snwprintf_s 256 256 dstrText with
        | some i, some (row, _) =>
          some { dev with m_reco := setRow dev.m_reco i row, m_nReco := dev.m_nReco + 1 }
        | _, _ => none
    else some dev

/-- The `while(event.GetFrom(dev->cpContext) == S_OK)` loop of `Update` over the
pending events. -/
def Update_loop (dev : Device) : List Event → Option Device
  | [] => some dev
  | event :: rest =>
    match Update_switch dev event with
    | none => none
    | some dev => Update_loop dev rest

/-! ## Rendering -/

/-- The size argument `(sizeof(buf)+(UINT32)(buf-d))/sizeof(WCHAR)` of
`GetString`, for `d = buf + off` and a `size_t` of `bits` bits: `sizeof(buf)` is
2048 bytes, `buf-d` is `-off` elements converted to 32 bits. -/
def bufSizeArg (bits : Nat) (off : Int) : Nat :=
  ((2048 + ((-off) % 2 ^ 32).toNat) % 2 ^ bits) / 2

/-- One iteration of the `for` loop of `GetString`: the state is the text held by
`buf` and the offset of `d` in `buf`. With `d` inside `buf`, `1024 - off`
elements follow it, and `_snwprintf_s` is told `bufSizeArg bits off`. The text
is written at `d` over what `buf` held from there on. -/
def GetString_body (bits : Nat) (dev : Device) (st : WString × Int) (iReco : Nat) :
    Option (WString × Int) :=
  if h : iReco < 8 then
    let s := dev.m_reco ⟨iReco, h⟩
    let formatted := (if iReco > 0 then [32] else []) ++ s
    if 0 ≤ st.2 ∧ st.2 ≤ 1024 then
      match _snwprintf_s (1024 - st.2).toNat (bufSizeArg bits st.2) formatted with
      | none => none
      | some (out, ret) => some (st.1.take st.2.toNat ++ out, st.2 + ret)
    else none
  else none

/-- The `if(dev)` branch of `GetString`: `buf` is emptied and the rows
`0 .. m_nReco` are appended in turn. -/
def GetString_dev (bits : Nat) (dev : Device) : Option WString :=
  ((List.range dev.m_nReco.toNat).foldlM (GetString_body bits dev) ([], 0)).map Prod.fst

/-! ## Measures and the global parent list -/

/-- The `struct Measure`. -/
structure Measure where
  m_parent : Option Ptr
  m_skin : Nat
  m_rmName : WString
  m_device : Option Device
  m_keyword : Option WString

/-- The constructor `Measure()`. -/
def Measure.new : Measure :=
  { m_parent := none, m_skin := 0, m_rmName := [], m_device := none, m_keyword := none }

/-- The program state: the live measures and the global `s_parents` vector. -/
structure World where
  heap : Ptr → Option Measure
  s_parents : List Ptr

/-- The state at plugin load: no measure, empty parent list. -/
def World.init : World := { heap := fun _ => none, s_parents := [] }

/-- Store a measure at an address. -/
def World.store (w : World) (p : Ptr) (m : Measure) : World :=
  { w with heap := fun q => if q = p then some m else w.heap q }

/-- Free the measure at an address (`delete m`). -/
def World.free (w : World) (p : Ptr) : World :=
  { w with heap := fun q => if q = p then none else w.heap q }

/-- What the host answers for the measure being created: `RmGetSkin`,
`RmGetMeasureName` and the `Parent`, `GrammarFile` and `Keyword` options read
with `RmReadString(..., L"")`. -/
structure Rm where
  skin : Nat
  measureName : WString
  parent : WString
  grammarFile : WString
  keyword : WString
  deriving DecidableEq, Repr

/-! ## Bringing the recognizer up and down -/

/-- The engine calls of `DeviceInit` whose `HRESULT` is tested with
`EXIT_ON_ERROR`. -/
inductive Stage
  | CoCreateInstance
  | CreateRecoContext
  | SetNotifyWindowMessage
  | SetInterest
  | SpCreateDefaultObjectFromCategoryId
  | SetInput
  | CreateGrammar
  | LoadCmdFromFile
  | SetRuleState
  | LoadDictation
  | SetDictationState
  | SetRecoState
  deriving DecidableEq, Repr

/-- The speech engine as `DeviceInit` sees it: the `HRESULT` of each call. A
call that succeeds has the effect its name says on the object it is made on. -/
abbrev Engine := Stage → Int

/-- The method `Measure::DeviceRelease`: the four handles are released, the
device deleted and `m_device` set to `NULL`. -/
def Measure.DeviceRelease (m : Measure) : Measure :=
  match m.m_device with
  | some _ => { m with m_device := none }
  | none => m

/-- The `Exit:` label of `DeviceInit`: release the device, return `hr`. -/
def DeviceInit_Exit (m : Measure) (dev : Device) (hr : Int) : Int × Measure :=
  (hr, ({ m with m_device := some dev }).DeviceRelease)

/-- The `if(fnGrammar && *fnGrammar)` part of `DeviceInit` and what follows it. -/
def DeviceInit_grammar (m : Measure) (engine : Engine) (fnGrammar : WString) (dev : Device) :
    Int × Measure :=
  let activate (dev : Device) : Int × Measure :=
    let hr := engine .SetRecoState
    if FAILED hr then DeviceInit_Exit m dev hr else
    let dev := { dev with cpRecognizer := dev.cpRecognizer.map fun r => { r with recoActive := true } }
    (S_OK, { m with m_device := some dev })
  if fnGrammar ≠ [] then
    let hr := engine .CreateGrammar
    if FAILED hr then DeviceInit_Exit m dev hr else
    let dev := { dev with cpGrammar := some ⟨none, false, false⟩ }
    let hr := engine .LoadCmdFromFile
    if FAILED hr then DeviceInit_Exit m dev hr else
    let dev := { dev with cpGrammar := some ⟨some (.cmdFile fnGrammar), false, false⟩ }
    let hr := engine .SetRuleState
    if FAILED hr then DeviceInit_Exit m dev hr else
    let dev := { dev with cpGrammar := some ⟨some (.cmdFile fnGrammar), true, false⟩ }
    activate dev
  else
    let hr := engine .CreateGrammar
    if FAILED hr then DeviceInit_Exit m dev hr else
    let dev := { dev with cpGrammar := some ⟨none, false, false⟩ }
    let hr := engine .LoadDictation
    if FAILED hr then DeviceInit_Exit m dev hr else
    let dev := { dev with cpGrammar := some ⟨some .dictation, false, false⟩ }
    let hr := engine .SetDictationState
    if FAILED hr then DeviceInit_Exit m dev hr else
    let dev := { dev with cpGrammar := some ⟨some .dictation, false, true⟩ }
    activate dev

/-- The method `Measure::DeviceInit`: returns the `HRESULT` and the measure. Its
`assert(!m_device)` holds at its only call, made by `Initialize` on a measure
that was just constructed. -/
def Measure.DeviceInit (m : Measure) (engine : Engine) (fnGrammar : WString) : Int × Measure :=
  let dev := Device.new
  let hr := engine .CoCreateInstance
  if FAILED hr then DeviceInit_Exit m dev hr else
  let dev := { dev with cpRecognizer := some ⟨false, false⟩ }
  let hr := engine .CreateRecoContext
  if FAILED hr then DeviceInit_Exit m dev hr else
  let dev := { dev with cpContext := some ⟨false, false⟩ }
  let hr := engine .SetNotifyWindowMessage
  if FAILED hr then DeviceInit_Exit m dev hr else
  let dev := { dev with cpContext := some ⟨true, false⟩ }
  let hr := engine .SetInterest
  if FAILED hr then DeviceInit_Exit m dev hr else
  let dev := { dev with cpContext := some ⟨true, true⟩ }
  let hr := engine .SpCreateDefaultObjectFromCategoryId
  if FAILED hr then DeviceInit_Exit m dev hr else
  let dev := { dev with cpAudio := some () }
  let hr := engine .SetInput
  if FAILED hr then DeviceInit_Exit m dev hr else
  let dev := { dev with cpRecognizer := some ⟨true, false⟩ }
  DeviceInit_grammar m engine fnGrammar dev

/-! ## The plugin entry points -/

/-- The parent search loop of `Initialize` over `s_parents`: `some (some p)` for
the entry the loop stops at, `some none` when it runs to the end, `none` when it
dereferences an entry that is not a live measure. -/
def Initialize_find (heap : Ptr → Option Measure) (parentName : WString) (skin : Nat) :
    List Ptr → Option (Option Ptr)
  | [] => some none
  | iter :: rest =>
    match heap iter with
    | none => none
    | some e =>
      if _wcsicmp e.m_rmName parentName = 0 ∧ e.m_skin = skin ∧ e.m_parent.isNone then
        some (some iter)
      else Initialize_find heap parentName skin rest

/-- The entry point `Initialize`; `data` is the address `new Measure` returns. -/
def Initialize (w : World) (data : Ptr) (rm : Rm) (engine : Engine) : Option World :=
  let m : Measure := { Measure.new with m_skin := rm.skin, m_rmName := rm.measureName }
  let w := w.store data m
  let asParent : World :=
    let w : World := { w with s_parents := w.s_parents ++ [data] }
    w.store data (m.DeviceInit engine rm.grammarFile).2
  if rm.parent ≠ [] then
    match Initialize_find w.heap rm.parent m.m_skin w.s_parents with
    | none => none
    | some (some iter) => some (w.store data { m with m_parent := some iter })
    | some none => some asParent
  else some asParent

/-- The entry point `Finalize`: `std::find` returns the first position of `m`
in `s_parents`, and erasing `end()` is outside the vector. -/
def Finalize (w : World) (data : Ptr) : Option World :=
  match w.heap data with
  | none => none
  | some m =>
    let m := m.DeviceRelease
    if m.m_parent.isNone then
      if data ∈ w.s_parents then
        some ({ w with s_parents := w.s_parents.erase data }.free data)
      else none
    else some (w.free data)

/-- The entry point `Reload`. -/
def Reload (w : World) (data : Ptr) (rm : Rm) : Option World :=
  match w.heap data with
  | none => none
  | some m => some (w.store data { m with m_keyword := some rm.keyword })

/-- The entry point `Update`; `pending` are the events waiting in the context of
the device of the measure. Returns the new state and the value. -/
def Update (w : World) (data : Ptr) (pending : List Event) : Option (World × Int) :=
  match w.heap data with
  | none => none
  | some m =>
    let _parent : Ptr := match m.m_parent with
      | some p => p
      | none => data
    match m.m_device with
    | some dev =>
      match Update_loop dev pending with
      | none => none
      | some dev =>
        some (w.store data { m with m_device := some dev }, if dev.m_sndActive then 1 else 0)
    | none => some (w, 0)

/-- The entry point `GetString` for a `size_t` of `bits` bits. -/
def GetString (bits : Nat) (w : World) (data : Ptr) : Option WString :=
  match w.heap data with
  | none => none
  | some m =>
    match m.m_device with
    | some dev => GetString_dev bits dev
    | none => some []

/-- Successive `Update` calls on one measure, one list of pending events per
call: the final state and the values returned, in call order. -/
def Updates (w : World) (data : Ptr) : List (List Event) → Option (World × List Int)
  | [] => some (w, [])
  | pending :: rest =>
    match Update w data pending with
    | none => none
    | some (w, v) =>
      match Updates w data rest with
      | none => none
      | some (w, vs) => some (w, v :: vs)

/-! ## Vocabulary of the statements -/

/-- The flag after one event. -/
def soundAfter (b : Bool) : Event → Bool
  | .SPEI_SOUND_START => true
  | .SPEI_SOUND_END => false
  | .SPEI_RECOGNITION _ => b

/-- Spec wording: the kind of the last sound-start or sound-end event of a
sequence, `true` for a start, `none` when the sequence has neither. -/
def lastSound : List Event → Option Bool
  | [] => none
  | e :: rest =>
    match lastSound rest with
    | some b => some b
    | none =>
      match e with
      | .SPEI_SOUND_START => some true
      | .SPEI_SOUND_END => some false
      | .SPEI_RECOGNITION _ => none

/-- Spec wording: the value the flag `b` is reported as. -/
def flagValue (b : Bool) : Int := if b then 1 else 0

/-- Spec wording: an event is a recognition. -/
def Event.isRecognition : Event → Bool
  | .SPEI_RECOGNITION _ => true
  | _ => false

/-- Spec wording: a sequence with its recognition events deleted. -/
def soundEvents (pending : List Event) : List Event :=
  pending.filter fun e => !e.isRecognition

/-- Spec wording: phrases joined with a single space, in order. -/
def joinPhrases (phrases : List WString) : WString :=
  List.intercalate [32] phrases

/-- The phrases reported by the device of the measure at `p`, when it has one. -/
def resultsAt (w : World) (p : Ptr) : Option (List WString) :=
  ((w.heap p).bind fun m => m.m_device).map Device.results

/-- A state with one measure, at address 1, owning the given device. -/
def worldWith (dev : Device) : World :=
  World.init.store 1 { Measure.new with m_device := some dev }

/-- An engine on which every call succeeds with `S_OK`. -/
def okEngine : Engine := fun _ => S_OK

/-- The sample skin's parent measure `mVC_Parent` with its grammar file. -/
def rmParent : Rm :=
  { skin := 1, measureName := (wide "mVC_Parent"), parent := [],
    grammarFile := (wide "@VC.grxml"), keyword := [] }

/-- The invariant the event loop keeps once the count is zero: the buffer is
empty or holds one phrase of at most 255 code units in row 0. -/
def AtMostOnePhrase (dev : Device) : Prop :=
  dev.m_nReco = 0 ∨ (dev.m_nReco = 1 ∧ (dev.m_reco 0).length ≤ 255)

/-- The parent `mVC_Parent` created in the initial state at address 1, every
engine call succeeding. -/
def startedParent : Option World := Initialize World.init 1 rmParent okEngine

/-- What `GetString` shows for the measure at address 1 after the started parent
has run the given `Update` calls. -/
def shownAfter (updates : List (List Event)) : Option WString :=
  startedParent.bind fun w => (Updates w 1 updates).bind fun r => GetString 32 r.1 1

/-- The engine calls `DeviceInit` makes, in order, for a grammar file name. -/
def stageOrder (fnGrammar : WString) : List Stage :=
  [.CoCreateInstance, .CreateRecoContext, .SetNotifyWindowMessage, .SetInterest,
    .SpCreateDefaultObjectFromCategoryId, .SetInput, .CreateGrammar] ++
  (if fnGrammar ≠ [] then [.LoadCmdFromFile, .SetRuleState]
   else [.LoadDictation, .SetDictationState]) ++
  [.SetRecoState]

/-- The `HRESULT` of the first failing call of a sequence, if any. -/
def firstFailure (engine : Engine) : List Stage → Option Int
  | [] => none
  | s :: rest => if FAILED (engine s) then some (engine s) else firstFailure engine rest

/-- The device a fully successful `DeviceInit` leaves behind. -/
def startedDevice (fnGrammar : WString) : Device :=
  { Device.new with
    cpRecognizer := some ⟨true, true⟩,
    cpContext := some ⟨true, true⟩,
    cpAudio := some (),
    cpGrammar := some ⟨some (if fnGrammar ≠ [] then .cmdFile fnGrammar else .dictation),
      decide (fnGrammar ≠ []), decide (fnGrammar = [])⟩ }

/-- An engine that fails to load the grammar file and succeeds otherwise. -/
def badGrammarEngine : Engine := fun s =>
  match s with
  | .LoadCmdFromFile => -2147200967
  | _ => S_OK

/-- Spec wording: two names are equal ignoring case. -/
def eqIgnoreCase (a b : WString) : Bool :=
  a.map towlower == b.map towlower

/-- Spec wording: the entry `q` is a live measure whose name equals the requested
name ignoring case, whose skin is the requested skin and which has no parent. -/
def resolvable (heap : Ptr → Option Measure) (name : WString) (skin : Nat) (q : Ptr) : Bool :=
  match heap q with
  | some e => eqIgnoreCase e.m_rmName name && decide (e.m_skin = skin) && e.m_parent.isNone
  | none => false

/-- Spec wording: the first entry of the parent list, in insertion order, that
can be resolved for the requested name and skin. -/
def resolve (w : World) (name : WString) (skin : Nat) : Option Ptr :=
  w.s_parents.find? (resolvable w.heap name skin)

/-- The measure `Initialize` has built before it looks for a parent. -/
def newMeasure (rm : Rm) : Measure :=
  { Measure.new with m_skin := rm.skin, m_rmName := rm.measureName }

/-- A state with two parents named `PARENT`, the first (address 1) in skin 2 and
the second (address 2) in skin 1. -/
def twoParents : World :=
  { heap := fun q =>
      if q = 1 then some { Measure.new with m_skin := 2, m_rmName := (wide "PARENT") }
      else if q = 2 then some { Measure.new with m_skin := 1, m_rmName := (wide "PARENT") }
      else none,
    s_parents := [1, 2] }

/-- A measure of skin 1 that names `Parent` as its parent. -/
def rmChildOfParent : Rm :=
  { skin := 1, measureName := (wide "mVC_Activate"), parent := (wide "Parent"),
    grammarFile := [], keyword := (wide "Rainmeter") }

/-- The sample skin's child measure `mVC_Activate`, naming `mVC_Parent`. -/
def rmChild : Rm :=
  { skin := 1, measureName := (wide "mVC_Activate"), parent := (wide "mVC_Parent"),
    grammarFile := [], keyword := (wide "Rainmeter") }

/-- A measure that names a parent `Missing`. -/
def rmMissing : Rm :=
  { skin := 1, measureName := (wide "mVC_Activate"), parent := (wide "Missing"),
    grammarFile := [], keyword := (wide "Rainmeter") }

/-- The sound flag of the device of the measure at `p`. -/
def soundActiveAt (w : World) (p : Ptr) : Option Bool :=
  ((w.heap p).bind fun m => m.m_device).map fun dev => dev.m_sndActive

/-- The parent link of the measure at `p`. -/
def parentAt (w : World) (p : Ptr) : Option (Option Ptr) :=
  (w.heap p).map fun m => m.m_parent

/-- A call the host makes to create or destroy a measure. -/
inductive Call
  | Initialize (data : Ptr) (rm : Rm) (engine : Engine)
  | Finalize (data : Ptr)

/-- Run one call. -/
def Call.run (w : World) : Call → Option World
  | .Initialize data rm engine => VoiceControl.Initialize w data rm engine
  | .Finalize data => VoiceControl.Finalize w data

/-- What the host and the allocator guarantee for one call: `new Measure` returns
an address that is not in use, and `Finalize` is applied to a live measure. -/
def Call.admissible (w : World) : Call → Bool
  | .Initialize data _ _ => (w.heap data).isNone
  | .Finalize data => (w.heap data).isSome

/-- Run a sequence of calls. -/
def runCalls : World → List Call → Option World
  | w, [] => some w
  | w, c :: rest =>
    match c.run w with
    | none => none
    | some w' => runCalls w' rest

/-- Every call of the sequence is admissible in the state it is made in. -/
def Admissible : World → List Call → Bool
  | _, [] => true
  | w, c :: rest =>
    c.admissible w &&
      match c.run w with
      | some w' => Admissible w' rest
      | none => true

/-- The parent list holds, without duplicates, exactly the live measures whose
`m_parent` is null. -/
def RegistryInv (w : World) : Prop :=
  w.s_parents.Nodup ∧ ∀ q, q ∈ w.s_parents ↔ ∃ m, w.heap q = some m ∧ m.m_parent = none

/-- What `Finalize` does to the parent list when applied to the live measure
`q`, as the claim words it. -/
def FinalizeBehaves (w : World) : Prop :=
  ∀ q m, w.heap q = some m →
    (m.m_parent = none →
      q ∈ w.s_parents ∧
      ∃ w', Finalize w q = some w' ∧ w'.s_parents = w.s_parents.erase q ∧
        q ∉ w'.s_parents ∧ w'.s_parents.length + 1 = w.s_parents.length ∧
        ∀ r, r ≠ q → (r ∈ w'.s_parents ↔ r ∈ w.s_parents)) ∧
    (m.m_parent ≠ none → ∃ w', Finalize w q = some w' ∧ w'.s_parents = w.s_parents)

/-! # Theorems -/

/-! ## Facts about the event loop -/

theorem snwprintf_row (text : WString) :
    _snwprintf_s 256 256 text =
      some (text.take 255, if text.length < 256 then (text.length : Int) else -1) := by
  unfold _snwprintf_s
  by_cases h : text.length < 256
  · have : text.take 255 = text := List.take_of_length_le (by omega)
    simp [h, this]
  · simp [h]

theorem rowIndex_zero : rowIndex 0 = some 0 := by
  simp [rowIndex]

theorem Update_switch_recognition (dev : Device) (text : WString) :
    Update_switch dev (.SPEI_RECOGNITION (some text)) =
      some { dev with m_reco := setRow dev.m_reco 0 (text.take 255), m_nReco := 1 } := by
  simp [Update_switch, snwprintf_row, rowIndex_zero]

theorem Update_switch_recognition_failed (dev : Device) :
    Update_switch dev (.SPEI_RECOGNITION none) = some { dev with m_nReco := 0 } := by
  simp [Update_switch]

theorem Update_switch_total (dev : Device) (e : Event) :
    ∃ dev', Update_switch dev e = some dev' ∧ dev'.m_sndActive = soundAfter dev.m_sndActive e := by
  cases e with
  | SPEI_SOUND_START => exact ⟨_, rfl, rfl⟩
  | SPEI_SOUND_END => exact ⟨_, rfl, rfl⟩
  | SPEI_RECOGNITION g =>
    cases g with
    | none => exact ⟨_, Update_switch_recognition_failed dev, rfl⟩
    | some t => exact ⟨_, Update_switch_recognition dev t, rfl⟩

theorem Update_loop_preserves_on (Q : Event → Prop) (P : Device → Prop)
    (hP : ∀ dev e, Q e → P dev → ∃ dev', Update_switch dev e = some dev' ∧ P dev') :
    ∀ (pending : List Event) (dev : Device), (∀ e ∈ pending, Q e) → P dev →
      ∃ dev', Update_loop dev pending = some dev' ∧ P dev' := by
  intro pending
  induction pending with
  | nil => intro dev _ h; exact ⟨dev, rfl, h⟩
  | cons e rest ih =>
    intro dev hq h
    obtain ⟨d1, h1, hp1⟩ := hP dev e (hq e (List.mem_cons_self _ _)) h
    obtain ⟨d2, h2, hp2⟩ := ih d1 (fun x hx => hq x (List.mem_cons_of_mem _ hx)) hp1
    exact ⟨d2, by simp [Update_loop, h1, h2], hp2⟩

theorem Update_loop_preserves (P : Device → Prop)
    (hP : ∀ dev e, P dev → ∃ dev', Update_switch dev e = some dev' ∧ P dev')
    (pending : List Event) (dev : Device) (h : P dev) :
    ∃ dev', Update_loop dev pending = some dev' ∧ P dev' :=
  Update_loop_preserves_on (fun _ => True) P (fun dev e _ => hP dev e) pending dev
    (fun _ _ => trivial) h

theorem Update_loop_total (dev : Device) (pending : List Event) :
    ∃ dev', Update_loop dev pending = some dev' := by
  obtain ⟨d, h, _⟩ := Update_loop_preserves (fun _ => True)
    (fun dev e _ => by obtain ⟨d, h, _⟩ := Update_switch_total dev e; exact ⟨d, h, trivial⟩)
    pending dev trivial
  exact ⟨d, h⟩

theorem Update_of_device (w : World) (p : Ptr) (m : Measure) (dev dev' : Device)
    (pending : List Event) (hm : w.heap p = some m) (hd : m.m_device = some dev)
    (hl : Update_loop dev pending = some dev') :
    Update w p pending =
      some (w.store p { m with m_device := some dev' }, if dev'.m_sndActive then 1 else 0) := by
  simp [Update, hm, hd, hl]

theorem Update_of_no_device (w : World) (p : Ptr) (m : Measure) (pending : List Event)
    (hm : w.heap p = some m) (hd : m.m_device = none) :
    Update w p pending = some (w, 0) := by
  simp [Update, hm, hd]

theorem store_heap_self (w : World) (p : Ptr) (m : Measure) :
    (w.store p m).heap p = some m := by
  simp [World.store]

theorem store_heap_other (w : World) (p q : Ptr) (m : Measure) (h : q ≠ p) :
    (w.store p m).heap q = w.heap q := by
  simp [World.store, h]

theorem store_s_parents (w : World) (p : Ptr) (m : Measure) :
    (w.store p m).s_parents = w.s_parents := rfl

/-! ## The sound flag -/

theorem Update_loop_sound (pending : List Event) :
    ∀ dev : Device, ∃ dev', Update_loop dev pending = some dev' ∧
      dev'.m_sndActive = (lastSound pending).getD dev.m_sndActive := by
  induction pending with
  | nil => intro dev; exact ⟨dev, rfl, rfl⟩
  | cons e rest ih =>
    intro dev
    obtain ⟨d1, h1, hs1⟩ := Update_switch_total dev e
    obtain ⟨d2, h2, hs2⟩ := ih d1
    refine ⟨d2, by simp [Update_loop, h1, h2], ?_⟩
    rw [hs2, hs1]
    cases hl : lastSound rest with
    | some b => simp [lastSound, hl]
    | none => cases e <;> simp [lastSound, hl, soundAfter]

theorem lastSound_soundEvents (pending : List Event) :
    lastSound (soundEvents pending) = lastSound pending := by
  induction pending with
  | nil => rfl
  | cons e rest ih =>
    cases e <;> simp [soundEvents, lastSound, Event.isRecognition] at ih ⊢ <;> rw [ih]
    cases lastSound rest <;> rfl

/-- Claim C4: `Update` on a parent with a device returns 1 when the last
sound-start/sound-end event among the pending events is a sound-start, 0 when it
is a sound-end, and the prior `m_sndActive` when there is neither; two pending
sequences that differ only in their recognition events give the same value. -/
theorem C4_update_returns_last_sound (w : World) (p : Ptr) (m : Measure) (dev : Device)
    (pending : List Event) (hm : w.heap p = some m) (hd : m.m_device = some dev) :
    (∃ w', Update w p pending =
        some (w', match lastSound pending with
                  | some true => 1
                  | some false => 0
                  | none => flagValue dev.m_sndActive)) ∧
    (∀ other : List Event, soundEvents other = soundEvents pending →
      (Update w p other).map Prod.snd = (Update w p pending).map Prod.snd) := by
  have key : ∀ evs : List Event, ∃ w', Update w p evs =
      some (w', flagValue ((lastSound evs).getD dev.m_sndActive)) := by
    intro evs
    obtain ⟨d, hl, hs⟩ := Update_loop_sound evs dev
    exact ⟨_, by rw [Update_of_device w p m dev d evs hm hd hl, hs]; rfl⟩
  constructor
  · obtain ⟨w', h⟩ := key pending
    refine ⟨w', ?_⟩
    rw [h]
    cases hl : lastSound pending with
    | none => rfl
    | some b => cases b <;> rfl
  · intro other ho
    obtain ⟨w1, h1⟩ := key other
    obtain ⟨w2, h2⟩ := key pending
    rw [h1, h2, ← lastSound_soundEvents other, ho, lastSound_soundEvents]
    rfl
/-- Claim C4, witness: with the flag set beforehand, a sound-end drained after a
sound-start gives 0, whatever recognitions are interleaved. -/
theorem C4_update_returns_last_sound_witness :
    (∃ w', Update (worldWith { Device.new with m_sndActive := true }) 1
        [.SPEI_SOUND_START, .SPEI_RECOGNITION (some (wide "hi")), .SPEI_SOUND_END,
          .SPEI_RECOGNITION none] =
        some (w', match lastSound [Event.SPEI_SOUND_START,
                    .SPEI_RECOGNITION (some (wide "hi")), .SPEI_SOUND_END,
                    .SPEI_RECOGNITION none] with
                  | some true => 1
                  | some false => 0
                  | none => flagValue ({ Device.new with m_sndActive := true }).m_sndActive)) ∧
    (∀ other : List Event,
      soundEvents other = soundEvents [Event.SPEI_SOUND_START,
        .SPEI_RECOGNITION (some (wide "hi")), .SPEI_SOUND_END, .SPEI_RECOGNITION none] →
      (Update (worldWith { Device.new with m_sndActive := true }) 1 other).map Prod.snd =
        (Update (worldWith { Device.new with m_sndActive := true }) 1
          [.SPEI_SOUND_START, .SPEI_RECOGNITION (some (wide "hi")), .SPEI_SOUND_END,
            .SPEI_RECOGNITION none]).map Prod.snd) :=
  C4_update_returns_last_sound (worldWith { Device.new with m_sndActive := true }) 1
    { Measure.new with m_device := some { Device.new with m_sndActive := true } }
    { Device.new with m_sndActive := true } _ rfl rfl

/-! ## Rendering -/

theorem results_zero (dev : Device) (h : dev.m_nReco = 0) : dev.results = [] := by
  simp [Device.results, h]

theorem results_one (dev : Device) (h : dev.m_nReco = 1) : dev.results = [dev.m_reco 0] := by
  rw [Device.results, h]
  rfl

theorem GetString_of_device (bits : Nat) (w : World) (p : Ptr) (m : Measure) (dev : Device)
    (hm : w.heap p = some m) (hd : m.m_device = some dev) :
    GetString bits w p = GetString_dev bits dev := by
  simp [GetString, hm, hd]

theorem GetString_of_no_device (bits : Nat) (w : World) (p : Ptr) (m : Measure)
    (hm : w.heap p = some m) (hd : m.m_device = none) :
    GetString bits w p = some [] := by
  simp [GetString, hm, hd]

/-! ## The phrase buffer -/

theorem Updates_preserves_on (Q : Event → Prop) (P : Device → Prop)
    (hP : ∀ dev e, Q e → P dev → ∃ dev', Update_switch dev e = some dev' ∧ P dev')
    (p : Ptr) (m : Measure) :
    ∀ (updates : List (List Event)) (w : World) (dev : Device),
      (∀ pending ∈ updates, ∀ e ∈ pending, Q e) →
      w.heap p = some { m with m_device := some dev } → P dev →
      ∃ w' vs dev', Updates w p updates = some (w', vs) ∧
        w'.heap p = some { m with m_device := some dev' } ∧ P dev' ∧
        vs.length = updates.length := by
  intro updates
  induction updates with
  | nil => intro w dev _ hm h; exact ⟨w, [], dev, rfl, hm, h, rfl⟩
  | cons pending rest ih =>
    intro w dev hq hm h
    obtain ⟨d1, hl, hp1⟩ := Update_loop_preserves_on Q P hP pending dev
      (hq pending (List.mem_cons_self _ _)) h
    have hu := Update_of_device w p _ dev d1 pending hm rfl hl
    obtain ⟨w2, vs, d2, hr, hm2, hp2, hlen⟩ :=
      ih (w.store p { m with m_device := some d1 }) d1
        (fun x hx => hq x (List.mem_cons_of_mem _ hx)) (store_heap_self _ _ _) hp1
    refine ⟨w2, (if d1.m_sndActive then 1 else 0) :: vs, d2, ?_, hm2, hp2, by simp [hlen]⟩
    simp [Updates, hu, hr]

theorem Updates_preserves (P : Device → Prop)
    (hP : ∀ dev e, P dev → ∃ dev', Update_switch dev e = some dev' ∧ P dev')
    (p : Ptr) (m : Measure) (updates : List (List Event)) (w : World) (dev : Device)
    (hm : w.heap p = some { m with m_device := some dev }) (h : P dev) :
    ∃ w' vs dev', Updates w p updates = some (w', vs) ∧
      w'.heap p = some { m with m_device := some dev' } ∧ P dev' ∧
      vs.length = updates.length :=
  Updates_preserves_on (fun _ => True) P (fun dev e _ => hP dev e) p m updates w dev
    (fun _ _ _ _ => trivial) hm h

theorem AtMostOnePhrase_step (dev : Device) (e : Event) (_h : AtMostOnePhrase dev) :
    ∃ dev', Update_switch dev e = some dev' ∧ AtMostOnePhrase dev' := by
  cases e with
  | SPEI_SOUND_START => exact ⟨_, rfl, Or.inl rfl⟩
  | SPEI_SOUND_END => exact ⟨_, rfl, _h⟩
  | SPEI_RECOGNITION g =>
    cases g with
    | none => exact ⟨_, Update_switch_recognition_failed dev, Or.inl rfl⟩
    | some t =>
      refine ⟨_, Update_switch_recognition dev t, Or.inr ⟨rfl, ?_⟩⟩
      simp [setRow]

theorem bufSizeArg_zero (bits : Nat) (hb : bits = 32 ∨ bits = 64) :
    bufSizeArg bits 0 = 1024 := by
  rcases hb with rfl | rfl <;> decide

theorem AtMostOnePhrase_render (bits : Nat) (hb : bits = 32 ∨ bits = 64) (dev : Device)
    (h : AtMostOnePhrase dev) : GetString_dev bits dev = some (joinPhrases dev.results) := by
  rcases h with h0 | ⟨h1, hlen⟩
  · rw [results_zero dev h0]
    simp [GetString_dev, h0, joinPhrases, List.intercalate]
  · rw [results_one dev h1]
    have hlt : (dev.m_reco 0).length < 1024 := by omega
    have hbody : GetString_body bits dev ([], 0) 0 =
        some (dev.m_reco 0, ((dev.m_reco 0).length : Int)) := by
      simp [GetString_body, _snwprintf_s, bufSizeArg_zero bits hb, hlt]
    simp [GetString_dev, h1, List.range_succ, hbody, joinPhrases, List.intercalate]

/-- Claim C9: from a device whose count `m_nReco` is 0, after every sequence of
`Update` calls draining arbitrary events (text retrieval succeeding or failing)
every call is defined (each write `m_reco[m_nReco++]` falls inside the array),
`0 ≤ m_nReco ≤ 8` holds, and `GetString` is defined (each read `m_reco[iReco]`
falls inside the array). -/
theorem C9_nReco_within_bounds (w : World) (p : Ptr) (m : Measure) (dev : Device)
    (updates : List (List Event)) (hm : w.heap p = some m) (hd : m.m_device = some dev)
    (h0 : dev.m_nReco = 0) :
    ∃ w' vs dev', Updates w p updates = some (w', vs) ∧
      w'.heap p = some { m with m_device := some dev' } ∧
      0 ≤ dev'.m_nReco ∧ dev'.m_nReco ≤ 8 ∧
      (GetString 32 w' p).isSome ∧ (GetString 64 w' p).isSome := by
  have hm' : w.heap p = some { m with m_device := some dev } := by
    rw [hm, ← hd]
  obtain ⟨w', vs, d, hr, hh, hp, _⟩ :=
    Updates_preserves AtMostOnePhrase AtMostOnePhrase_step p m updates w dev hm' (Or.inl h0)
  refine ⟨w', vs, d, hr, hh, ?_, ?_, ?_, ?_⟩
  · rcases hp with h | ⟨h, _⟩ <;> omega
  · rcases hp with h | ⟨h, _⟩ <;> omega
  · rw [GetString_of_device 32 w' p _ d hh rfl, AtMostOnePhrase_render 32 (Or.inl rfl) d hp]
    rfl
  · rw [GetString_of_device 64 w' p _ d hh rfl, AtMostOnePhrase_render 64 (Or.inr rfl) d hp]
    rfl

/-- Claim C9, witness: a measure owning a freshly constructed device, and two `Update`
calls, the first draining a sound-start and two recognitions. -/
theorem C9_nReco_within_bounds_witness :
    ∃ w' vs dev', Updates (worldWith Device.new) 1
        [[.SPEI_SOUND_START, .SPEI_RECOGNITION (some (wide "a")),
          .SPEI_RECOGNITION (some (wide "b"))], [.SPEI_RECOGNITION none]] = some (w', vs) ∧
      w'.heap 1 = some { Measure.new with m_device := some dev' } ∧
      0 ≤ dev'.m_nReco ∧ dev'.m_nReco ≤ 8 ∧
      (GetString 32 w' 1).isSome ∧ (GetString 64 w' 1).isSome :=
  C9_nReco_within_bounds (worldWith Device.new) 1 { Measure.new with m_device := some Device.new }
    Device.new _ rfl rfl rfl
theorem Update_loop_append (a b : List Event) :
    ∀ dev : Device, Update_loop dev (a ++ b) = (Update_loop dev a).bind fun d => Update_loop d b := by
  induction a with
  | nil => intro dev; rfl
  | cons e rest ih =>
    intro dev
    simp only [List.cons_append, Update_loop]
    cases Update_switch dev e with
    | none => rfl
    | some d => simpa using ih d

/-- Claim C1 (defect of the code): after a sound-start and the recognitions "a"
and "b", drained by one `Update` of a started parent, the result buffer holds
only "b", and after a sound-start and nine recognitions "1" to "9" it holds only
"9": every recognition resets `m_nReco` to 0 before it stores its text. -/
theorem C1_recognition_overwrites_buffer :
    ((startedParent.bind fun w =>
      (Update w 1 [.SPEI_SOUND_START, .SPEI_RECOGNITION (some (wide "a")),
        .SPEI_RECOGNITION (some (wide "b"))]).bind fun r => resultsAt r.1 1)
      = some [(wide "b")] ∧
     [(wide "b")] ≠ [(wide "a"), (wide "b")]) ∧
    ((startedParent.bind fun w =>
      (Update w 1 (.SPEI_SOUND_START ::
        ["1", "2", "3", "4", "5", "6", "7", "8", "9"].map fun t =>
          Event.SPEI_RECOGNITION (some (wide t)))).bind fun r => resultsAt r.1 1)
      = some [(wide "9")] ∧
     [(wide "9")] ≠ ["1", "2", "3", "4", "5", "6", "7", "8"].map wide) := by
  decide

theorem holds_one_render (bits : Nat) (hb : bits = 32 ∨ bits = 64) (dev : Device)
    (t : WString) (ht : t.length ≤ 255) (h : dev.m_nReco = 1 ∧ dev.m_reco 0 = t) :
    GetString_dev bits dev = some t := by
  rw [AtMostOnePhrase_render bits hb dev (Or.inr ⟨h.1, by rw [h.2]; exact ht⟩),
    results_one dev h.1, h.2]
  simp [joinPhrases, List.intercalate]

theorem holds_none_render (bits : Nat) (hb : bits = 32 ∨ bits = 64) (dev : Device)
    (h : dev.m_nReco = 0) : GetString_dev bits dev = some [] := by
  rw [AtMostOnePhrase_render bits hb dev (Or.inl h), results_zero dev h]
  rfl

/-- Claim C7 (amended): on a measure with a device, for every phrase `t` of at
most 255 `WCHAR` code units, an `Update` draining a sound-start and the recognition of
`t` returns 1 and a following `Update` draining a sound-end returns 0;
`GetString` returns exactly `t` after each of them and after any further
`Update` calls that drain only sound-end events, and returns the empty string
after the next `Update` that drains a sound-start with no recognition after it. -/
theorem C7_end_to_end (bits : Nat) (hb : bits = 32 ∨ bits = 64) (w : World) (p : Ptr)
    (m : Measure) (dev : Device) (t : WString) (hm : w.heap p = some m)
    (hd : m.m_device = some dev) (ht : t.length ≤ 255) :
    ∃ w1 w2, Update w p [.SPEI_SOUND_START, .SPEI_RECOGNITION (some t)] = some (w1, 1) ∧
      GetString bits w1 p = some t ∧
      Update w1 p [.SPEI_SOUND_END] = some (w2, 0) ∧
      GetString bits w2 p = some t ∧
      ∀ further : List (List Event),
        (∀ pending ∈ further, ∀ e ∈ pending, e = Event.SPEI_SOUND_END) →
        ∃ w3 vs, Updates w2 p further = some (w3, vs) ∧
          GetString bits w3 p = some t ∧
          ∀ pre post : List Event, (∀ e ∈ post, e.isRecognition = false) →
            ∃ w4 v, Update w3 p (pre ++ Event.SPEI_SOUND_START :: post) = some (w4, v) ∧
              GetString bits w4 p = some [] := by
  have htake : t.take 255 = t := List.take_of_length_le ht
  -- the first call
  let d1 : Device :=
    { dev with m_nReco := 1, m_sndActive := true, m_reco := setRow dev.m_reco 0 t }
  have hl1 : Update_loop dev [.SPEI_SOUND_START, .SPEI_RECOGNITION (some t)] = some d1 := by
    simp [Update_loop, Update_switch, snwprintf_row, rowIndex_zero, htake, d1]
  have hu1 := Update_of_device w p m dev d1 _ hm hd hl1
  have hP1 : d1.m_nReco = 1 ∧ d1.m_reco 0 = t := ⟨rfl, by simp [d1, setRow]⟩
  -- the second call
  let d2 : Device := { d1 with m_sndActive := false }
  have hl2 : Update_loop d1 [.SPEI_SOUND_END] = some d2 := rfl
  have hu2 := Update_of_device (w.store p { m with m_device := some d1 }) p
    { m with m_device := some d1 } d1 d2 _ (store_heap_self _ _ _) rfl hl2
  have hP2 : d2.m_nReco = 1 ∧ d2.m_reco 0 = t := hP1
  refine ⟨_, _, hu1, ?_, hu2, ?_, ?_⟩
  · rw [GetString_of_device bits _ p _ d1 (store_heap_self _ _ _) rfl]
    exact holds_one_render bits hb d1 t ht hP1
  · rw [GetString_of_device bits _ p _ d2 (store_heap_self _ _ _) rfl]
    exact holds_one_render bits hb d2 t ht hP2
  · intro further hq
    obtain ⟨w3, vs, d3, hr, hh3, hP3, _⟩ :=
      Updates_preserves_on (fun e => e = Event.SPEI_SOUND_END)
        (fun d => d.m_nReco = 1 ∧ d.m_reco 0 = t)
        (fun d e he hd => by subst he; exact ⟨_, rfl, hd⟩)
        p m further _ d2 hq (store_heap_self _ _ _) hP2
    refine ⟨w3, vs, hr, ?_, ?_⟩
    · rw [GetString_of_device bits _ p _ d3 hh3 rfl]
      exact holds_one_render bits hb d3 t ht hP3
    · intro pre post hpost
      obtain ⟨d4, hl4⟩ := Update_loop_total d3 pre
      obtain ⟨d5, hl5, hP5⟩ :=
        Update_loop_preserves_on (fun e => e.isRecognition = false) (fun d => d.m_nReco = 0)
          (fun d e he hd => by
            cases e with
            | SPEI_SOUND_START => exact ⟨_, rfl, rfl⟩
            | SPEI_SOUND_END => exact ⟨_, rfl, hd⟩
            | SPEI_RECOGNITION g => simp [Event.isRecognition] at he)
          post { d4 with m_nReco := 0, m_sndActive := true } hpost rfl
      have hl : Update_loop d3 (pre ++ Event.SPEI_SOUND_START :: post) = some d5 := by
        rw [Update_loop_append, hl4]
        simpa [Update_loop, Update_switch] using hl5
      refine ⟨_, _, Update_of_device w3 p _ d3 d5 _ hh3 rfl hl, ?_⟩
      rw [GetString_of_device bits _ p _ d5 (store_heap_self _ _ _) rfl]
      exact holds_none_render bits hb d5 hP5

/-- Claim C7, witness: the phrase "turn on lights" on a measure owning a fresh device. -/
theorem C7_end_to_end_witness :
    ∃ w1 w2, Update (worldWith Device.new) 1
        [.SPEI_SOUND_START, .SPEI_RECOGNITION (some (wide "turn on lights"))] = some (w1, 1) ∧
      GetString 32 w1 1 = some (wide "turn on lights") ∧
      Update w1 1 [.SPEI_SOUND_END] = some (w2, 0) ∧
      GetString 32 w2 1 = some (wide "turn on lights") ∧
      ∀ further : List (List Event),
        (∀ pending ∈ further, ∀ e ∈ pending, e = Event.SPEI_SOUND_END) →
        ∃ w3 vs, Updates w2 1 further = some (w3, vs) ∧
          GetString 32 w3 1 = some (wide "turn on lights") ∧
          ∀ pre post : List Event, (∀ e ∈ post, e.isRecognition = false) →
            ∃ w4 v, Update w3 1 (pre ++ Event.SPEI_SOUND_START :: post) = some (w4, v) ∧
              GetString 32 w4 1 = some [] :=
  C7_end_to_end 32 (Or.inl rfl) (worldWith Device.new) 1
    { Measure.new with m_device := some Device.new } Device.new (wide "turn on lights")
    rfl rfl (by decide)

set_option maxRecDepth 100000 in
/-- Claim C7, counterexample: a phrase of 256 code units is shown cut to its
first 255 units, and so is a phrase of 128 characters U+1F600, which is 256 code
units; and after the phrase "turn on lights" a further `Update` that drains only
the recognition of "stop" (no sound-start) makes `GetString` return "stop". -/
theorem C7_counterexample :
    (shownAfter [[.SPEI_SOUND_START, .SPEI_RECOGNITION (some (List.replicate 256 97))]]
        = some (List.replicate 255 97) ∧
      List.replicate 255 (97 : WCHAR) ≠ List.replicate 256 97) ∧
    ((wide (String.mk (List.replicate 128 (Char.ofNat 128512)))).length = 256 ∧
      shownAfter [[.SPEI_SOUND_START,
          .SPEI_RECOGNITION (some (wide (String.mk (List.replicate 128 (Char.ofNat 128512)))))]]
        = some ((wide (String.mk (List.replicate 128 (Char.ofNat 128512)))).take 255) ∧
      (wide (String.mk (List.replicate 128 (Char.ofNat 128512)))).take 255 ≠
        wide (String.mk (List.replicate 128 (Char.ofNat 128512)))) ∧
    (shownAfter [[.SPEI_SOUND_START, .SPEI_RECOGNITION (some (wide "turn on lights"))],
        [.SPEI_SOUND_END], [.SPEI_RECOGNITION (some (wide "stop"))]]
        = some (wide "stop") ∧
      wide "stop" ≠ wide "turn on lights") := by
  decide

/-! ## Bringing the recognizer up -/

theorem firstFailure_split (engine : Engine) (s : Stage) (post : List Stage)
    (hs : FAILED (engine s) = true) :
    ∀ pre : List Stage, (∀ t ∈ pre, FAILED (engine t) = false) →
      firstFailure engine (pre ++ s :: post) = some (engine s) := by
  intro pre
  induction pre with
  | nil => intro _; simp [firstFailure, hs]
  | cons a rest ih =>
    intro h
    have ha := h a (List.mem_cons_self _ _)
    simp [firstFailure, ha, ih (fun t ht => h t (List.mem_cons_of_mem _ ht))]

theorem firstFailure_none (engine : Engine) :
    ∀ l : List Stage, (∀ t ∈ l, FAILED (engine t) = false) → firstFailure engine l = none := by
  intro l
  induction l with
  | nil => intro _; rfl
  | cons a rest ih =>
    intro h
    simp [firstFailure, h a (List.mem_cons_self _ _),
      ih (fun t ht => h t (List.mem_cons_of_mem _ ht))]

theorem DeviceInit_eq (m : Measure) (engine : Engine) (fnGrammar : WString) :
    m.DeviceInit engine fnGrammar =
      match firstFailure engine (stageOrder fnGrammar) with
      | some hr => (hr, { m with m_device := none })
      | none => (S_OK, { m with m_device := some (startedDevice fnGrammar) }) := by
  cases fnGrammar with
  | nil =>
    simp only [Measure.DeviceInit, DeviceInit_grammar, stageOrder, firstFailure,
      DeviceInit_Exit, Measure.DeviceRelease, startedDevice, Device.new, ne_eq,
      not_true_eq_false, ↓reduceIte, List.cons_append, List.nil_append, Option.map_some',
      decide_True, decide_False]
    by_cases hCoCreateInstance : FAILED (engine .CoCreateInstance) = true
    · simp only [hCoCreateInstance, ↓reduceIte]
    simp only [hCoCreateInstance, Bool.false_eq_true, ↓reduceIte]
    by_cases hCreateRecoContext : FAILED (engine .CreateRecoContext) = true
    · simp only [hCreateRecoContext, ↓reduceIte]
    simp only [hCreateRecoContext, Bool.false_eq_true, ↓reduceIte]
    by_cases hSetNotifyWindowMessage : FAILED (engine .SetNotifyWindowMessage) = true
    · simp only [hSetNotifyWindowMessage, ↓reduceIte]
    simp only [hSetNotifyWindowMessage, Bool.false_eq_true, ↓reduceIte]
    by_cases hSetInterest : FAILED (engine .SetInterest) = true
    · simp only [hSetInterest, ↓reduceIte]
    simp only [hSetInterest, Bool.false_eq_true, ↓reduceIte]
    by_cases hSpCreateDefaultObjectFromCategoryId : FAILED (engine .SpCreateDefaultObjectFromCategoryId) = true
    · simp only [hSpCreateDefaultObjectFromCategoryId, ↓reduceIte]
    simp only [hSpCreateDefaultObjectFromCategoryId, Bool.false_eq_true, ↓reduceIte]
    by_cases hSetInput : FAILED (engine .SetInput) = true
    · simp only [hSetInput, ↓reduceIte]
    simp only [hSetInput, Bool.false_eq_true, ↓reduceIte]
    by_cases hCreateGrammar : FAILED (engine .CreateGrammar) = true
    · simp only [hCreateGrammar, ↓reduceIte]
    simp only [hCreateGrammar, Bool.false_eq_true, ↓reduceIte]
    by_cases hLoadDictation : FAILED (engine .LoadDictation) = true
    · simp only [hLoadDictation, ↓reduceIte]
    simp only [hLoadDictation, Bool.false_eq_true, ↓reduceIte]
    by_cases hSetDictationState : FAILED (engine .SetDictationState) = true
    · simp only [hSetDictationState, ↓reduceIte]
    simp only [hSetDictationState, Bool.false_eq_true, ↓reduceIte]
    by_cases hSetRecoState : FAILED (engine .SetRecoState) = true
    · simp only [hSetRecoState, ↓reduceIte]
    simp only [hSetRecoState, Bool.false_eq_true, ↓reduceIte]
  | cons c cs =>
    simp only [Measure.DeviceInit, DeviceInit_grammar, stageOrder, firstFailure,
      DeviceInit_Exit, Measure.DeviceRelease, startedDevice, Device.new, ne_eq,
      reduceCtorEq, not_false_eq_true, ↓reduceIte, List.cons_append, List.nil_append,
      Option.map_some', decide_True, decide_False]
    by_cases hCoCreateInstance : FAILED (engine .CoCreateInstance) = true
    · simp only [hCoCreateInstance, ↓reduceIte]
    simp only [hCoCreateInstance, Bool.false_eq_true, ↓reduceIte]
    by_cases hCreateRecoContext : FAILED (engine .CreateRecoContext) = true
    · simp only [hCreateRecoContext, ↓reduceIte]
    simp only [hCreateRecoContext, Bool.false_eq_true, ↓reduceIte]
    by_cases hSetNotifyWindowMessage : FAILED (engine .SetNotifyWindowMessage) = true
    · simp only [hSetNotifyWindowMessage, ↓reduceIte]
    simp only [hSetNotifyWindowMessage, Bool.false_eq_true, ↓reduceIte]
    by_cases hSetInterest : FAILED (engine .SetInterest) = true
    · simp only [hSetInterest, ↓reduceIte]
    simp only [hSetInterest, Bool.false_eq_true, ↓reduceIte]
    by_cases hSpCreateDefaultObjectFromCategoryId : FAILED (engine .SpCreateDefaultObjectFromCategoryId) = true
    · simp only [hSpCreateDefaultObjectFromCategoryId, ↓reduceIte]
    simp only [hSpCreateDefaultObjectFromCategoryId, Bool.false_eq_true, ↓reduceIte]
    by_cases hSetInput : FAILED (engine .SetInput) = true
    · simp only [hSetInput, ↓reduceIte]
    simp only [hSetInput, Bool.false_eq_true, ↓reduceIte]
    by_cases hCreateGrammar : FAILED (engine .CreateGrammar) = true
    · simp only [hCreateGrammar, ↓reduceIte]
    simp only [hCreateGrammar, Bool.false_eq_true, ↓reduceIte]
    by_cases hLoadCmdFromFile : FAILED (engine .LoadCmdFromFile) = true
    · simp only [hLoadCmdFromFile, ↓reduceIte]
    simp only [hLoadCmdFromFile, Bool.false_eq_true, ↓reduceIte]
    by_cases hSetRuleState : FAILED (engine .SetRuleState) = true
    · simp only [hSetRuleState, ↓reduceIte]
    simp only [hSetRuleState, Bool.false_eq_true, ↓reduceIte]
    by_cases hSetRecoState : FAILED (engine .SetRecoState) = true
    · simp only [hSetRecoState, ↓reduceIte]
    simp only [hSetRecoState, Bool.false_eq_true, ↓reduceIte]
theorem Updates_no_device (p : Ptr) (m : Measure) (w : World) (hm : w.heap p = some m)
    (hd : m.m_device = none) :
    ∀ updates : List (List Event),
      Updates w p updates = some (w, List.replicate updates.length 0) := by
  intro updates
  induction updates with
  | nil => rfl
  | cons pending rest ih =>
    simp [Updates, Update_of_no_device w p m pending hm hd, ih, List.replicate_succ]

/-- Claim C8: when an engine call of `DeviceInit` fails (the calls before it
having succeeded), `DeviceInit` returns the failing `HRESULT` and leaves
`m_device` null, after which every `Update` on the measure returns 0 and
`GetString` returns the empty string; when every call succeeds it returns `S_OK`
with all four handles set and exactly one grammar active, the file grammar when
the grammar path is non-empty and the dictation grammar otherwise. -/
theorem C8_DeviceInit_all_or_nothing (m : Measure) (engine : Engine) (fnGrammar : WString) :
    (∀ (pre post : List Stage) (s : Stage), stageOrder fnGrammar = pre ++ s :: post →
      (∀ t ∈ pre, FAILED (engine t) = false) → FAILED (engine s) = true →
        m.DeviceInit engine fnGrammar = (engine s, { m with m_device := none }) ∧
        ∀ (w : World) (p : Ptr), w.heap p = some (m.DeviceInit engine fnGrammar).2 →
          (∀ updates : List (List Event),
            Updates w p updates = some (w, List.replicate updates.length 0)) ∧
          GetString 32 w p = some [] ∧ GetString 64 w p = some []) ∧
    ((∀ t ∈ stageOrder fnGrammar, FAILED (engine t) = false) →
      ∃ dev : Device, m.DeviceInit engine fnGrammar = (S_OK, { m with m_device := some dev }) ∧
        dev.cpRecognizer = some ⟨true, true⟩ ∧ dev.cpContext = some ⟨true, true⟩ ∧
        dev.cpAudio = some () ∧
        (fnGrammar ≠ [] → dev.cpGrammar = some ⟨some (.cmdFile fnGrammar), true, false⟩) ∧
        (fnGrammar = [] → dev.cpGrammar = some ⟨some .dictation, false, true⟩) ∧
        dev.m_sndActive = false ∧ dev.m_nReco = 0) := by
  constructor
  · intro pre post s hsplit hpre hs
    have hfail : m.DeviceInit engine fnGrammar = (engine s, { m with m_device := none }) := by
      rw [DeviceInit_eq, hsplit, firstFailure_split engine s post hs pre hpre]
    refine ⟨hfail, ?_⟩
    intro w p hm
    rw [hfail] at hm
    exact ⟨Updates_no_device p _ w hm rfl, GetString_of_no_device 32 w p _ hm rfl,
      GetString_of_no_device 64 w p _ hm rfl⟩
  · intro hall
    refine ⟨startedDevice fnGrammar, ?_, rfl, rfl, rfl, ?_, ?_, rfl, rfl⟩
    · rw [DeviceInit_eq, firstFailure_none engine _ hall]
    · intro h; simp [startedDevice, h]
    · intro h; simp [startedDevice, h]

/-- Claim C8, witness: an engine that fails to load the grammar file `@VC.grxml`,
and an engine on which every call succeeds. -/
theorem C8_DeviceInit_all_or_nothing_witness :
    (Measure.new.DeviceInit badGrammarEngine (wide "@VC.grxml") =
        (-2147200967, { Measure.new with m_device := none }) ∧
      ∀ (w : World) (p : Ptr),
        w.heap p = some (Measure.new.DeviceInit badGrammarEngine (wide "@VC.grxml")).2 →
          (∀ updates : List (List Event),
            Updates w p updates = some (w, List.replicate updates.length 0)) ∧
          GetString 32 w p = some [] ∧ GetString 64 w p = some []) ∧
    (∃ dev : Device, Measure.new.DeviceInit okEngine (wide "@VC.grxml") =
        (S_OK, { Measure.new with m_device := some dev }) ∧
        dev.cpRecognizer = some ⟨true, true⟩ ∧ dev.cpContext = some ⟨true, true⟩ ∧
        dev.cpAudio = some () ∧
        ((wide "@VC.grxml") ≠ [] →
          dev.cpGrammar = some ⟨some (.cmdFile (wide "@VC.grxml")), true, false⟩) ∧
        ((wide "@VC.grxml") = [] → dev.cpGrammar = some ⟨some .dictation, false, true⟩) ∧
        dev.m_sndActive = false ∧ dev.m_nReco = 0) :=
  ⟨(C8_DeviceInit_all_or_nothing Measure.new badGrammarEngine (wide "@VC.grxml")).1
      [.CoCreateInstance, .CreateRecoContext, .SetNotifyWindowMessage, .SetInterest,
        .SpCreateDefaultObjectFromCategoryId, .SetInput, .CreateGrammar]
      [.SetRuleState, .SetRecoState] .LoadCmdFromFile (by decide) (by decide) (by decide),
   (C8_DeviceInit_all_or_nothing Measure.new okEngine (wide "@VC.grxml")).2 (by decide)⟩
theorem wchar_val_ne (a b : WCHAR) (h : a ≠ b) : (a.val : Int) - (b.val : Int) ≠ 0 := by
  intro hz
  apply h
  apply Fin.ext
  omega

theorem wcsicmp_eq_zero_iff (a : WString) :
    ∀ b : WString, _wcsicmp a b = 0 ↔ a.map towlower = b.map towlower := by
  induction a with
  | nil => intro b; cases b <;> simp [_wcsicmp]
  | cons x xs ih =>
    intro b
    cases b with
    | nil => simp [_wcsicmp]
    | cons y ys =>
      by_cases hxy : towlower x = towlower y
      · simp [_wcsicmp, hxy, ih ys]
      · simp [_wcsicmp, hxy, wchar_val_ne _ _ hxy]
/-! ## Parent resolution -/

theorem Initialize_find_eq (heap heap' : Ptr → Option Measure) (name : WString) (skin : Nat) :
    ∀ l : List Ptr, (∀ q ∈ l, (heap q).isSome) → (∀ q ∈ l, heap' q = heap q) →
      Initialize_find heap' name skin l = some (l.find? (resolvable heap name skin)) := by
  intro l
  induction l with
  | nil => intro _ _; rfl
  | cons q rest ih =>
    intro hlive hagree
    have hq := hlive q (List.mem_cons_self _ _)
    have ha := hagree q (List.mem_cons_self _ _)
    have ih' := ih (fun r hr => hlive r (List.mem_cons_of_mem _ hr))
      (fun r hr => hagree r (List.mem_cons_of_mem _ hr))
    cases he : heap q with
    | none => simp [he] at hq
    | some e =>
      by_cases hc : _wcsicmp e.m_rmName name = 0 ∧ e.m_skin = skin ∧ e.m_parent.isNone = true
      · have hr : resolvable heap name skin q = true := by
          obtain ⟨h1, h2, h3⟩ := hc
          simp [resolvable, he, eqIgnoreCase, (wcsicmp_eq_zero_iff _ _).1 h1, h2, h3]
        simp [Initialize_find, ha, he, hc, List.find?_cons, hr]
      · have hr : resolvable heap name skin q = false := by
          rw [wcsicmp_eq_zero_iff] at hc
          simp only [resolvable, he, eqIgnoreCase]
          by_contra hne
          apply hc
          simp at hne
          obtain ⟨h1, h2, h3⟩ := hne
          exact ⟨h1, h2, by simp [h3]⟩
        simp only [Initialize_find, ha, he, hc, if_false, List.find?_cons, hr]
        exact ih'

theorem DeviceInit_snd (m : Measure) (engine : Engine) (fnGrammar : WString) :
    ∃ d : Option Device, (m.DeviceInit engine fnGrammar).2 = { m with m_device := d } ∧
      ((∃ s ∈ stageOrder fnGrammar, FAILED (engine s) = true) → d = none) := by
  rw [DeviceInit_eq]
  cases hf : firstFailure engine (stageOrder fnGrammar) with
  | some hr => exact ⟨none, rfl, fun _ => rfl⟩
  | none =>
    refine ⟨some (startedDevice fnGrammar), rfl, ?_⟩
    rintro ⟨s, hs, hfail⟩
    exfalso
    have : ∀ l : List Stage, s ∈ l → firstFailure engine l ≠ none := by
      intro l
      induction l with
      | nil => intro h; simp at h
      | cons a rest ih =>
        intro h
        by_cases ha : FAILED (engine a) = true
        · simp [firstFailure, ha]
        · simp only [firstFailure, ha, Bool.false_eq_true, if_false]
          rcases List.mem_cons.1 h with rfl | h'
          · exact absurd hfail ha
          · exact ih h'
    exact this _ hs hf

theorem not_mem_of_fresh (w : World) (data : Ptr)
    (hlive : ∀ q ∈ w.s_parents, (w.heap q).isSome) (hfresh : w.heap data = none) :
    data ∉ w.s_parents := by
  intro h
  have := hlive data h
  simp [hfresh] at this

theorem Initialize_find_stored (w : World) (data : Ptr) (m : Measure) (name : WString)
    (skin : Nat) (hlive : ∀ q ∈ w.s_parents, (w.heap q).isSome) (hfresh : w.heap data = none) :
    Initialize_find (w.store data m).heap name skin (w.store data m).s_parents =
      some (resolve w name skin) := by
  apply Initialize_find_eq w.heap _ name skin w.s_parents hlive
  intro q hq
  have : q ≠ data := by
    rintro rfl
    exact not_mem_of_fresh w q hlive hfresh hq
  exact store_heap_other w data q m this

theorem Initialize_child (w : World) (data : Ptr) (rm : Rm) (engine : Engine) (q : Ptr)
    (hname : rm.parent ≠ []) (hlive : ∀ q ∈ w.s_parents, (w.heap q).isSome)
    (hfresh : w.heap data = none) (hres : resolve w rm.parent rm.skin = some q) :
    Initialize w data rm engine =
      some ((w.store data (newMeasure rm)).store data
        { newMeasure rm with m_parent := some q }) := by
  have hf := Initialize_find_stored w data (newMeasure rm) rm.parent rm.skin hlive hfresh
  rw [hres] at hf
  unfold Initialize
  simp only [hname, ne_eq, not_false_eq_true, if_true]
  have hf' : Initialize_find
      (w.store data { Measure.new with m_skin := rm.skin, m_rmName := rm.measureName }).heap
      rm.parent rm.skin
      (w.store data { Measure.new with m_skin := rm.skin, m_rmName := rm.measureName }).s_parents
      = some (some q) := hf
  simp only [hf']
  rfl

theorem Initialize_parent (w : World) (data : Ptr) (rm : Rm) (engine : Engine)
    (hlive : ∀ q ∈ w.s_parents, (w.heap q).isSome) (hfresh : w.heap data = none)
    (hres : rm.parent = [] ∨ resolve w rm.parent rm.skin = none) :
    Initialize w data rm engine =
      some (World.store { w.store data (newMeasure rm) with s_parents := w.s_parents ++ [data] }
        data ((newMeasure rm).DeviceInit engine rm.grammarFile).2) := by
  unfold Initialize
  by_cases hname : rm.parent = []
  · simp only [hname, ne_eq, not_true_eq_false, if_false]
    rfl
  · have hnone : resolve w rm.parent rm.skin = none := by
      rcases hres with h | h
      · exact absurd h hname
      · exact h
    have hf := Initialize_find_stored w data (newMeasure rm) rm.parent rm.skin hlive hfresh
    rw [hnone] at hf
    have hf' : Initialize_find
        (w.store data { Measure.new with m_skin := rm.skin, m_rmName := rm.measureName }).heap
        rm.parent rm.skin
        (w.store data { Measure.new with m_skin := rm.skin, m_rmName := rm.measureName }).s_parents
        = some none := hf
    simp only [hname, ne_eq, not_false_eq_true, if_true, hf']
    rfl
/-- Claim C5: for a non-empty requested parent name, `Initialize` sets the new
measure's `m_parent` to the first entry of the parent list, in insertion order,
whose name equals the requested name ignoring case, whose skin is the new
measure's skin and which has no parent itself; an entry of a different skin is
never selected; and when an entry is selected the new measure gets no device and
is not added to the parent list. -/
theorem C5_parent_resolution (w : World) (data : Ptr) (rm : Rm) (engine : Engine)
    (hname : rm.parent ≠ []) (hlive : ∀ q ∈ w.s_parents, (w.heap q).isSome)
    (hfresh : w.heap data = none) :
    ∃ w' m', Initialize w data rm engine = some w' ∧ w'.heap data = some m' ∧
      m'.m_parent = resolve w rm.parent rm.skin ∧
      (∀ q, m'.m_parent = some q →
        (∃ before after e, w.s_parents = before ++ q :: after ∧ w.heap q = some e ∧
          e.m_rmName.map towlower = rm.parent.map towlower ∧ e.m_skin = rm.skin ∧
          e.m_parent = none ∧
          ∀ r ∈ before, resolvable w.heap rm.parent rm.skin r = false) ∧
        m'.m_device = none ∧ w'.s_parents = w.s_parents ∧ data ∉ w'.s_parents) ∧
      (∀ q e, w.heap q = some e → e.m_skin ≠ rm.skin → m'.m_parent ≠ some q) := by
  have hsel : ∀ q, resolve w rm.parent rm.skin = some q →
      ∃ before after e, w.s_parents = before ++ q :: after ∧ w.heap q = some e ∧
        e.m_rmName.map towlower = rm.parent.map towlower ∧ e.m_skin = rm.skin ∧
        e.m_parent = none ∧ ∀ r ∈ before, resolvable w.heap rm.parent rm.skin r = false := by
    intro q hq
    obtain ⟨hp, before, after, hsplit, hbefore⟩ := List.find?_eq_some.1 hq
    cases he : w.heap q with
    | none => simp [resolvable, he] at hp
    | some e =>
      simp only [resolvable, he, eqIgnoreCase, Bool.and_eq_true, beq_iff_eq,
        decide_eq_true_eq, Option.isNone_iff_eq_none] at hp
      exact ⟨before, after, e, hsplit, rfl, hp.1.1, hp.1.2, hp.2,
        fun r hr => by simpa using hbefore r hr⟩
  cases hres : resolve w rm.parent rm.skin with
  | some q =>
    refine ⟨_, _, Initialize_child w data rm engine q hname hlive hfresh hres,
      store_heap_self _ _ _, rfl, ?_, ?_⟩
    · intro q' hq'
      have hqq : q = q' := by simpa using hq'
      subst hqq
      exact ⟨hsel q hres, rfl, rfl, not_mem_of_fresh w data hlive hfresh⟩
    · intro q' e he hskin hq'
      have hqq : q = q' := by simpa using hq'
      subst hqq
      obtain ⟨_, _, e', _, he', _, hs, _⟩ := hsel q hres
      rw [he] at he'
      have : e = e' := by simpa using he'
      subst this
      exact hskin hs
  | none =>
    obtain ⟨d, hd, _⟩ := DeviceInit_snd (newMeasure rm) engine rm.grammarFile
    refine ⟨_, _, Initialize_parent w data rm engine hlive hfresh (Or.inr hres),
      store_heap_self _ _ _, ?_, ?_, ?_⟩
    · rw [hd]; rfl
    · intro q hq; rw [hd] at hq; simp [newMeasure, Measure.new] at hq
    · intro q e _ _ hq; rw [hd] at hq; simp [newMeasure, Measure.new] at hq

/-- Claim C5, witness: with two parents named `PARENT`, the first in another
skin, a measure naming `Parent` is linked to the second. -/
theorem C5_parent_resolution_witness :
    resolve twoParents rmChildOfParent.parent rmChildOfParent.skin = some 2 ∧
    ∃ w' m', Initialize twoParents 3 rmChildOfParent okEngine = some w' ∧
      w'.heap 3 = some m' ∧
      m'.m_parent = resolve twoParents rmChildOfParent.parent rmChildOfParent.skin ∧
      (∀ q, m'.m_parent = some q →
        (∃ before after e, twoParents.s_parents = before ++ q :: after ∧
          twoParents.heap q = some e ∧
          e.m_rmName.map towlower = rmChildOfParent.parent.map towlower ∧
          e.m_skin = rmChildOfParent.skin ∧ e.m_parent = none ∧
          ∀ r ∈ before,
            resolvable twoParents.heap rmChildOfParent.parent rmChildOfParent.skin r = false) ∧
        m'.m_device = none ∧ w'.s_parents = twoParents.s_parents ∧ 3 ∉ w'.s_parents) ∧
      (∀ q e, twoParents.heap q = some e → e.m_skin ≠ rmChildOfParent.skin →
        m'.m_parent ≠ some q) :=
  ⟨by decide,
   C5_parent_resolution twoParents 3 rmChildOfParent okEngine (by decide) (by decide) rfl⟩

/-- Claim C3 (amended): when `Initialize` is called with a non-empty parent name
that matches no entry of the parent list, it completes and returns a measure
that has no parent link, is appended to the parent list and has had its own
device initialisation attempted; when that initialisation fails, every later
`Update` on the measure returns 0 and `GetString` returns the empty string. -/
theorem C3_unresolved_parent (w : World) (data : Ptr) (rm : Rm) (engine : Engine)
    (hname : rm.parent ≠ []) (hlive : ∀ q ∈ w.s_parents, (w.heap q).isSome)
    (hfresh : w.heap data = none)
    (hno : ∀ q ∈ w.s_parents, resolvable w.heap rm.parent rm.skin q = false) :
    ∃ w' m', Initialize w data rm engine = some w' ∧ w'.heap data = some m' ∧
      m'.m_parent = none ∧ w'.s_parents = w.s_parents ++ [data] ∧
      m' = ((newMeasure rm).DeviceInit engine rm.grammarFile).2 ∧
      ((∃ s ∈ stageOrder rm.grammarFile, FAILED (engine s) = true) →
        m'.m_device = none ∧
        (∀ updates : List (List Event),
          Updates w' data updates = some (w', List.replicate updates.length 0)) ∧
        GetString 32 w' data = some [] ∧ GetString 64 w' data = some []) := by
  have _ := hname
  have hres : resolve w rm.parent rm.skin = none := by
    simp only [resolve, List.find?_eq_none]
    intro q hq; simp [hno q hq]
  obtain ⟨d, hd, hfail⟩ := DeviceInit_snd (newMeasure rm) engine rm.grammarFile
  have hheap := store_heap_self
    { w.store data (newMeasure rm) with s_parents := w.s_parents ++ [data] } data
    ((newMeasure rm).DeviceInit engine rm.grammarFile).2
  refine ⟨_, _, Initialize_parent w data rm engine hlive hfresh (Or.inr hres), hheap,
    ?_, rfl, rfl, ?_⟩
  · rw [hd]; rfl
  · intro hf
    have hdn : ((newMeasure rm).DeviceInit engine rm.grammarFile).2.m_device = none := by
      rw [hd, hfail hf]
    exact ⟨hdn, Updates_no_device data _ _ hheap hdn,
      GetString_of_no_device 32 _ data _ hheap hdn,
      GetString_of_no_device 64 _ data _ hheap hdn⟩
/-- Claim C3, witness: a measure naming the parent `Missing` in the initial
state, with an engine that fails to load the grammar. -/
theorem C3_unresolved_parent_witness :
    ∃ w' m', Initialize World.init 1 { rmMissing with grammarFile := (wide "@VC.grxml") }
        badGrammarEngine = some w' ∧ w'.heap 1 = some m' ∧
      m'.m_parent = none ∧ w'.s_parents = World.init.s_parents ++ [1] ∧
      m' = ((newMeasure { rmMissing with grammarFile := (wide "@VC.grxml") }).DeviceInit
        badGrammarEngine (wide "@VC.grxml")).2 ∧
      ((∃ s ∈ stageOrder (wide "@VC.grxml"), FAILED (badGrammarEngine s) = true) →
        m'.m_device = none ∧
        (∀ updates : List (List Event),
          Updates w' 1 updates = some (w', List.replicate updates.length 0)) ∧
        GetString 32 w' 1 = some [] ∧ GetString 64 w' 1 = some []) :=
  C3_unresolved_parent World.init 1 { rmMissing with grammarFile := (wide "@VC.grxml") }
    badGrammarEngine (by decide) (by decide) rfl (by decide)

/-- Claim C3, counterexample: a measure naming the parent `Missing`, which no
entry of the (empty) parent list matches, gets a device of its own when the
engine works; its `Update` draining a sound-start and the recognition of "hi"
returns 1 and its `GetString` then returns "hi". -/
theorem C3_counterexample :
    rmMissing.parent ≠ [] ∧
    (∀ q ∈ World.init.s_parents,
      resolvable World.init.heap rmMissing.parent rmMissing.skin q = false) ∧
    ((Initialize World.init 1 rmMissing okEngine).bind fun w =>
      (Update w 1 [.SPEI_SOUND_START, .SPEI_RECOGNITION (some (wide "hi"))]).bind fun r =>
        (GetString 32 r.1 1).map fun s => (r.2, s)) = some (1, (wide "hi")) := by
  decide

/-- Claim C2 (defect of the code): a child linked to a parent whose device has
`m_sndActive = true` after the parent's latest `Update` still gets 0 from its
own `Update`: the device is taken from the child itself, not from the parent. -/
theorem C2_child_update_ignores_parent :
    (startedParent.bind fun w0 =>
      (Initialize w0 2 rmChild okEngine).bind fun w1 =>
        (Update w1 1 [.SPEI_SOUND_START]).bind fun r1 =>
          (Update r1.1 2 []).map fun r2 =>
            (parentAt r2.1 2, soundActiveAt r2.1 1, r1.2, r2.2))
      = some (some (some 1), some true, 1, 0) := by
  decide
/-! ## The parent list -/

theorem RegistryInv_live (w : World) (h : RegistryInv w) :
    ∀ q ∈ w.s_parents, (w.heap q).isSome := by
  intro q hq
  obtain ⟨m, hm, _⟩ := (h.2 q).1 hq
  simp [hm]

theorem RegistryInv_Initialize (w : World) (data : Ptr) (rm : Rm) (engine : Engine)
    (hinv : RegistryInv w) (hfresh : w.heap data = none) :
    ∃ w', Initialize w data rm engine = some w' ∧ RegistryInv w' := by
  have hlive := RegistryInv_live w hinv
  have hnot := not_mem_of_fresh w data hlive hfresh
  by_cases hchild : rm.parent ≠ [] ∧ ∃ q, resolve w rm.parent rm.skin = some q
  · obtain ⟨hname, q, hres⟩ := hchild
    refine ⟨_, Initialize_child w data rm engine q hname hlive hfresh hres, hinv.1, ?_⟩
    intro r
    by_cases hr : r = data
    · subst hr
      simp [World.store, hnot]
    · simp only [World.store, hr, if_false]
      exact hinv.2 r
  · have hres : rm.parent = [] ∨ resolve w rm.parent rm.skin = none := by
      by_cases hname : rm.parent = []
      · exact Or.inl hname
      · right
        cases hr : resolve w rm.parent rm.skin with
        | none => rfl
        | some q => exact absurd ⟨hname, q, hr⟩ hchild
    obtain ⟨d, hd, _⟩ := DeviceInit_snd (newMeasure rm) engine rm.grammarFile
    refine ⟨_, Initialize_parent w data rm engine hlive hfresh hres, ?_, ?_⟩
    · show (w.s_parents ++ [data]).Nodup
      rw [List.nodup_append]
      exact ⟨hinv.1, List.nodup_singleton _, by simpa using hnot⟩
    · intro r
      show r ∈ w.s_parents ++ [data] ↔ _
      by_cases hr : r = data
      · subst hr
        simp only [World.store, if_true, List.mem_append, List.mem_singleton, or_true, true_iff]
        exact ⟨_, rfl, by rw [hd]; rfl⟩
      · simp only [World.store, hr, if_false, List.mem_append, List.mem_singleton, or_false]
        exact hinv.2 r

theorem RegistryInv_Finalize (w : World) (hinv : RegistryInv w) :
    FinalizeBehaves w ∧
    ∀ q, (w.heap q).isSome → ∃ w', Finalize w q = some w' ∧ RegistryInv w' := by
  have hrel : ∀ m : Measure, m.DeviceRelease.m_parent = m.m_parent := by
    intro m
    unfold Measure.DeviceRelease
    cases m.m_device <;> rfl
  have hpar : ∀ q m, w.heap q = some m → m.m_parent = none →
      q ∈ w.s_parents ∧
      Finalize w q = some ({ w with s_parents := w.s_parents.erase q }.free q) := by
    intro q m hm hp
    have hmem : q ∈ w.s_parents := (hinv.2 q).2 ⟨m, hm, hp⟩
    refine ⟨hmem, ?_⟩
    simp [Finalize, hm, hrel, hp, hmem]
  have hchild : ∀ q m, w.heap q = some m → m.m_parent ≠ none →
      q ∉ w.s_parents ∧ Finalize w q = some (w.free q) := by
    intro q m hm hp
    constructor
    · intro hmem
      obtain ⟨m', hm', hp'⟩ := (hinv.2 q).1 hmem
      rw [hm] at hm'
      have : m = m' := by simpa using hm'
      subst this
      exact hp hp'
    · have : m.m_parent.isNone = false := by
        cases h : m.m_parent with
        | none => exact absurd h hp
        | some _ => rfl
      simp [Finalize, hm, hrel, this]
  constructor
  · intro q m hm
    constructor
    · intro hp
      obtain ⟨hmem, hfin⟩ := hpar q m hm hp
      refine ⟨hmem, _, hfin, rfl, ?_, ?_, ?_⟩
      · show q ∉ w.s_parents.erase q
        exact fun h => ((List.Nodup.mem_erase_iff hinv.1).1 h).1 rfl
      · show (w.s_parents.erase q).length + 1 = _
        rw [List.length_erase_of_mem hmem]
        have : 0 < w.s_parents.length := List.length_pos_of_mem hmem
        omega
      · intro r hr
        show r ∈ w.s_parents.erase q ↔ _
        rw [List.Nodup.mem_erase_iff hinv.1]
        exact ⟨fun h => h.2, fun h => ⟨hr, h⟩⟩
    · intro hp
      exact ⟨_, (hchild q m hm hp).2, rfl⟩
  · intro q hq
    cases hm : w.heap q with
    | none => simp [hm] at hq
    | some m =>
      by_cases hp : m.m_parent = none
      · obtain ⟨_, hfin⟩ := hpar q m hm hp
        refine ⟨_, hfin, ?_, ?_⟩
        · exact hinv.1.erase q
        · intro r
          show r ∈ w.s_parents.erase q ↔ _
          rw [List.Nodup.mem_erase_iff hinv.1]
          by_cases hr : r = q
          · subst hr; simp [World.free]
          · simp only [World.free, hr, if_false, ne_eq, not_false_eq_true, true_and]
            exact hinv.2 r
      · obtain ⟨hnot, hfin⟩ := hchild q m hm hp
        refine ⟨_, hfin, hinv.1, ?_⟩
        intro r
        show r ∈ w.s_parents ↔ _
        by_cases hr : r = q
        · subst hr; simp [World.free, hnot]
        · simp only [World.free, hr, if_false]
          exact hinv.2 r

theorem RegistryInv_runCalls :
    ∀ (calls : List Call) (w : World), RegistryInv w → Admissible w calls = true →
      ∃ w', runCalls w calls = some w' ∧ RegistryInv w' := by
  intro calls
  induction calls with
  | nil => intro w h _; exact ⟨w, rfl, h⟩
  | cons c rest ih =>
    intro w hinv hadm
    simp only [Admissible, Bool.and_eq_true] at hadm
    obtain ⟨hc, hrest⟩ := hadm
    have hstep : ∃ w1, c.run w = some w1 ∧ RegistryInv w1 := by
      cases c with
      | Initialize data rm engine =>
        apply RegistryInv_Initialize w data rm engine hinv
        simpa [Call.admissible] using hc
      | Finalize data =>
        exact (RegistryInv_Finalize w hinv).2 data (by simpa [Call.admissible] using hc)
    obtain ⟨w1, hrun, hinv1⟩ := hstep
    rw [hrun] at hrest
    obtain ⟨w2, hr2, hinv2⟩ := ih w1 hinv1 hrest
    exact ⟨w2, by simp [runCalls, hrun, hr2], hinv2⟩

/-- Claim C10: after every sequence of `Initialize` and `Finalize` calls, each
`Initialize` getting an unused address and each `Finalize` a live measure, every
call is defined and the parent list holds, without duplicates, exactly the live
measures whose `m_parent` is null; so `Finalize` of a measure without a parent
finds it in the list and removes that entry alone, and `Finalize` of a child
leaves the list unchanged. -/
theorem C10_registry_invariant (calls : List Call)
    (hadm : Admissible World.init calls = true) :
    ∃ w, runCalls World.init calls = some w ∧ RegistryInv w ∧ FinalizeBehaves w := by
  have h0 : RegistryInv World.init := by
    refine ⟨List.nodup_nil, ?_⟩
    intro q
    simp [World.init]
  obtain ⟨w, hr, hinv⟩ := RegistryInv_runCalls calls World.init h0 hadm
  exact ⟨w, hr, hinv, (RegistryInv_Finalize w hinv).1⟩

/-- Claim C10, witness: a parent, a child of it, a parent whose device fails to
start and a measure whose named parent is missing are created, then the child
and the first parent are destroyed. -/
theorem C10_registry_invariant_witness :
    ∃ w, runCalls World.init
        [.Initialize 1 rmParent okEngine, .Initialize 2 rmChild okEngine,
          .Initialize 3 { rmParent with measureName := (wide "mVC_Other") } badGrammarEngine,
          .Initialize 4 rmMissing okEngine, .Finalize 2, .Finalize 1] = some w ∧
      RegistryInv w ∧ FinalizeBehaves w :=
  C10_registry_invariant _ (by decide)

end VoiceControl
